import Mathlib

/-!
Verification development for the Q&A orchestration engine of the qaAgent
repository (src/app.py, src/utils/validators.py).

The Python source is shallowly embedded: each LLM Gateway call is modelled
as a function returning `Option String` (`none` = the call raised), Python
floats that carry complexity scores and thresholds are modelled as `ℚ`,
and Python dicts with optional keys are modelled as structures with
`Option` fields.  Asynchronous completion order is modelled explicitly
(see `collectSlots`), and the shared semaphore of
`_run_parallel_qa_only_with_progress` is modelled as a step relation
(see `SemStep`).
-/

namespace QASpec

/-- One Q&A pair as built by `_process_section_internal` in src/app.py
(lines 1253-1295).  The Python dict always carries `question`, `answer`
and `section`; the keys `followup_question`, `followup_answer` and
`complexity_score` are present only when a follow-up was attached, hence
`Option` fields. -/
structure QAPair where
  question : String
  answer : String
  sectionIdx : Nat
  followup_question : Option String := none
  followup_answer : Option String := none
  complexity_score : Option ℚ := none
  deriving Repr, DecidableEq, Inhabited

/-- One follow-up pair as built by `_handle_followup_questions_async`
(src/app.py lines 1368-1403): dict with question, answer, section,
type="followup" and `followup_count` starting at 1. -/
structure FollowupPair where
  question : String
  answer : String
  sectionIdx : Nat
  followup_count : Nat
  deriving Repr, DecidableEq, Inhabited

/-- Model of `_evaluate_answer_complexity` (src/app.py lines 774-807).
`response` is the Gateway reply to the rubric prompt (`none` = the call
raised); `parseFloat` models `float(complexity_response.strip())` as a
whole — stripping plus parsing, `none` = `ValueError`.  The parsed score
is clamped with `max(0.0, min(1.0, score))`; both failure paths return
the neutral 0.5. -/
def evaluate_answer_complexity (parseFloat : String → Option ℚ)
    (response : Option String) : ℚ :=
  match response with
  | none => 1/2
  | some r =>
    match parseFloat r with
    | none => 1/2
    | some score => max 0 (min 1 score)

/-- The LLM Gateway behaviour visible to one section task.  Each field
models one `single_agent_invoke` call site of src/app.py; `none` models
the awaited call raising an exception. -/
structure Env where
  /-- `_generate_question_async` (lines 1313-1350): section text and
  optional target keyword to student question. -/
  genQuestion : String → Option String → Option String
  /-- `_generate_answer_async` (lines 1352-1366): question and section
  text to teacher answer. -/
  genAnswer : String → String → Option String
  /-- `_generate_followup_question_async` (lines 1405-1431): current
  answer to follow-up question. -/
  genFollowupQuestion : String → Option String
  /-- `_generate_followup_answer_async` (lines 1433-1458): follow-up
  question and section text to follow-up answer. -/
  genFollowupAnswer : String → String → Option String
  /-- Gateway reply to the complexity rubric prompt for a given answer
  text (the `single_agent_invoke` inside `_evaluate_answer_complexity`). -/
  evalResponse : String → Option String
  /-- Model of Python `float()` on a stripped Gateway reply. -/
  parseFloat : String → Option ℚ

/-- The composed complexity evaluator a section task actually calls:
`_evaluate_answer_complexity` over this environment.  Total: it never
raises, by construction of `evaluate_answer_complexity`. -/
def Env.evalComplexity (env : Env) (answer : String) : ℚ :=
  evaluate_answer_complexity env.parseFloat (env.evalResponse answer)

/-- The `for followup_count in range(max_followups)` loop body of
`_handle_followup_questions_async` (src/app.py lines 1374-1401).
First argument is remaining fuel (`max_followups - followup_count`),
second is the current `followup_count`, third the current answer.
A failing Gateway call breaks the loop keeping the pairs built so far;
after appending a pair the loop re-evaluates complexity and stops when
the score drops below the threshold. -/
def followupLoopAux (env : Env) (sectionText : String) (idx : Nat) (θ : ℚ) :
    Nat → Nat → String → List FollowupPair
  | 0, _, _ => []
  | fuel + 1, count, current =>
    match env.genFollowupQuestion current with
    | none => []
    | some fq =>
      match env.genFollowupAnswer fq sectionText with
      | none => []
      | some fa =>
        let pair : FollowupPair :=
          { question := fq, answer := fa, sectionIdx := idx,
            followup_count := count + 1 }
        if env.evalComplexity fa < θ then [pair]
        else pair :: followupLoopAux env sectionText idx θ fuel (count + 1) fa

/-- `_handle_followup_questions_async` (src/app.py lines 1368-1403). -/
def handle_followup_questions (env : Env) (sectionText initial_answer : String)
    (idx : Nat) (θ : ℚ) (max_followups : Nat) : List FollowupPair :=
  followupLoopAux env sectionText idx θ max_followups 0 initial_answer

/-- `_process_section_internal` (src/app.py lines 1253-1295).  A Gateway
failure while generating the question or the answer is caught by the
enclosing `try` before anything was appended, so the function returns the
empty list for a failed section.  On success it returns exactly one pair;
when follow-ups ran and produced at least one pair, only the FIRST
follow-up is attached to the main pair (line 1287:
`first_followup = followup_pairs[0]`), together with the main complexity
score. -/
def process_section_internal (env : Env) (sectionText : String) (idx : Nat)
    (enable_followup : Bool) (θ : ℚ) (max_followups : Nat)
    (target_keyword : Option String) : List QAPair :=
  match env.genQuestion sectionText target_keyword with
  | none => []
  | some q =>
    match env.genAnswer q sectionText with
    | none => []
    | some a =>
      let main : QAPair := { question := q, answer := a, sectionIdx := idx }
      if enable_followup then
        let score := env.evalComplexity a
        if θ ≤ score then
          match handle_followup_questions env sectionText a idx θ max_followups with
          | [] => [main]
          | fp :: _ =>
            [{ main with
                followup_question := some fp.question,
                followup_answer := some fp.answer,
                complexity_score := some score }]
        else [main]
      else [main]

/-- Number of follow-up exchanges present in a returned section result:
pairs carrying a `followup_question` key. -/
def followupExchangeCount (ps : List QAPair) : Nat :=
  (ps.filter (fun p => p.followup_question.isSome)).length

/-- One iteration of the keyword-selection block at the top of the
per-section loop (src/app.py lines 1554-1560, identically 1028-1035):
if the keyword list is non-empty and fewer keywords are used than exist,
take the first keyword not yet in `used_keywords`, else assign none. -/
def pickKeyword (target_keywords used : List String) : Option String :=
  if target_keywords ≠ [] ∧ used.length < target_keywords.length then
    match target_keywords.filter (fun kw => kw ∉ used) with
    | [] => none
    | kw :: _ => some kw
  else none

/-- The whole `for section_index, section in enumerate(sections)` keyword
assignment: one `Option String` per section, threading the mutable
`used_keywords` set (a list without duplicates, since only fresh keywords
are added). -/
def assignLoop (target_keywords used : List String) : Nat → List (Option String)
  | 0 => []
  | n + 1 =>
    match pickKeyword target_keywords used with
    | none => none :: assignLoop target_keywords used n
    | some kw => some kw :: assignLoop target_keywords (used ++ [kw]) n

/-- The i-th section task created by `_run_parallel_qa_only_with_progress`
(src/app.py lines 1553-1565): `_process_section_internal` on the i-th
section with the keyword chosen for it.  `previous_qa` is passed as `[]`
in the source and does not influence control flow, so it is dropped. -/
def sectionTask (env : Nat → Env) (sections : List String)
    (enable_followup : Bool) (θ : ℚ) (max_followups : Nat)
    (target_keywords : List String) (i : Nat) : List QAPair :=
  process_section_internal (env i) (sections.getD i "") i
    enable_followup θ max_followups
    ((assignLoop target_keywords [] sections.length).getD i none)

/-- Model of `asyncio.gather` result collection: each task finishes at
some point of the completion order and its result is stored in the slot
of its index.  `order` is the completion order (a task may appear once it
finished); slots of unfinished tasks stay `none`. -/
def collectSlots (task : Nat → List QAPair) :
    List Nat → Nat → Option (List QAPair)
  | [] => fun _ => none
  | i :: rest => Function.update (collectSlots task rest) i (some (task i))

/-- The `for i, result in enumerate(results)` aggregation loop of
`_run_parallel_qa_only_with_progress` (src/app.py lines 1575-1607).
First component: the accumulated `qa_pairs` (results extended in index
order).  Second component: the `(completed_count, total)` values at which
the overall progress is reported — only under `elif result:` (non-empty
result) and only when `completed_count % 5 == 0 or completed_count ==
total_sections` (line 1595). -/
def resultsFold (total : Nat) : Nat → List (List QAPair) →
    List QAPair × List (Nat × Nat)
  | _, [] => ([], [])
  | c, r :: rest =>
    let completed := c + 1
    let tail := resultsFold total completed rest
    if r.isEmpty then tail
    else
      (r ++ tail.1,
       (if completed % 5 = 0 ∨ completed = total
        then [(completed, total)] else []) ++ tail.2)

/-- `_run_parallel_qa_only_with_progress` (src/app.py lines 1461-1619),
stripped of UI rendering: assign keywords, create one task per section,
run them to completion in the given completion `order`, collect results
in index order (the `asyncio.gather` contract), then fold the results
into `qa_pairs` and the emitted progress updates. -/
def run_parallel_qa_with_progress (env : Nat → Env) (sections : List String)
    (enable_followup : Bool) (θ : ℚ) (max_followups : Nat)
    (target_keywords : List String) (order : List Nat) :
    List QAPair × List (Nat × Nat) :=
  let n := sections.length
  let task := sectionTask env sections enable_followup θ max_followups target_keywords
  let results := (List.range n).map (fun i => (collectSlots task order i).getD [])
  resultsFold n 0 results

/-- Python strings are modelled as `List Char` for the document
splitter, so that every operation is structurally recursive and
executable.  `pyWS` is the whitespace set of Python `str.strip()`. -/
def pyWS (c : Char) : Bool :=
  c = ' ' || c = '\t' || c = '\n' || c = '\r' || c = '\x0b' || c = '\x0c'

/-- Python `s.strip()`: drop whitespace from both ends. -/
def pyStrip (s : List Char) : List Char :=
  ((s.dropWhile pyWS).reverse.dropWhile pyWS).reverse

/-- Python `content.split('\n\n')`: split on each non-overlapping
occurrence of two consecutive newlines, scanning left to right, keeping
empty pieces (as Python does for an explicit separator). -/
def splitNN : List Char → List (List Char)
  | [] => [[]]
  | [c] => [[c]]
  | c :: d :: rest =>
    if c = '\n' ∧ d = '\n' then [] :: splitNN rest
    else
      match splitNN (d :: rest) with
      | [] => [[c]]
      | w :: ws => (c :: w) :: ws

/-- Python `content.split('\n')`. -/
def splitN : List Char → List (List Char)
  | [] => [[]]
  | c :: rest =>
    match splitN rest with
    | [] => [[c]]
    | w :: ws => if c = '\n' then [] :: w :: ws else (c :: w) :: ws

/-- The paragraph list comprehension of `_split_document` (src/app.py
line 683 resp. 687): split, strip each piece, keep the non-empty ones. -/
def stripParas (ps : List (List Char)) : List (List Char) :=
  (ps.map pyStrip).filter (fun p => p ≠ [])

/-- Lines 683-687 of src/app.py: paragraphs from blank-line splitting,
falling back to single-newline splitting when there are none. -/
def paragraphsOf (content : List Char) : List (List Char) :=
  let ps := stripParas (splitNN content)
  if ps = [] then stripParas (splitN content) else ps

/-- `max(paragraphs, key=len)` (src/app.py line 710): the first paragraph
of maximal length.  Python `max` keeps the earliest maximum, so the fold
replaces the best candidate only on a strictly longer paragraph. -/
def longestPara (ps : List (List Char)) : List Char :=
  ps.foldl (fun best p => if best.length < p.length then p else best) (ps.headD [])

/-- The `while len(sections) < qa_turns` padding loop of `_split_document`
(src/app.py lines 708-711): repeatedly append the longest paragraph while
the section list is short.  The first argument is an iteration budget;
the loop adds one section per iteration, so a budget of `target`
iterations always suffices to reach the exit condition (this is proved by
`padLoop_length`), making the fuelled function extensionally equal to the
source loop. -/
def padLoop (paragraphs : List (List Char)) (target : Nat) :
    Nat → List (List Char) → List (List Char)
  | 0, sections => sections
  | fuel + 1, sections =>
    if sections.length < target then
      padLoop paragraphs target fuel (sections ++ [longestPara paragraphs])
    else sections

/-- `_split_document` (src/app.py lines 680-712).  With no non-whitespace
paragraph at all it returns `min(qa_turns, 3)` copies of the stripped
text; with at least `qa_turns` paragraphs it takes `qa_turns` evenly
stepped slices (`step = len // qa_turns`, slice `[i*step : min((i+1)*step,
len)]` joined by blank lines); otherwise it pads with the longest
paragraph and truncates to `qa_turns`. -/
def split_document (content : List Char) (qa_turns : Nat) : List (List Char) :=
  let paragraphs := paragraphsOf content
  if paragraphs = [] then List.replicate (min qa_turns 3) (pyStrip content)
  else if qa_turns ≤ paragraphs.length then
    let step := paragraphs.length / qa_turns
    (List.range qa_turns).map (fun i =>
      List.intercalate ['\n', '\n']
        ((paragraphs.drop (i * step)).take
          (min ((i + 1) * step) paragraphs.length - i * step)))
  else (padLoop paragraphs qa_turns qa_turns paragraphs).take qa_turns

/-- The result dict of `InputValidator.validate_qa_settings`
(src/utils/validators.py lines 44-70). -/
structure ValidationResult where
  is_valid : Bool
  error_message : String
  warnings : List String
  deriving Repr, DecidableEq

/-- `InputValidator.validate_qa_settings` (src/utils/validators.py lines
44-70), for an integer argument (the `isinstance(qa_turns, int)` branch
is the typing of the argument here).  It only checks that `qa_turns` lies
in the range 5-20 and RETURNS a result dict; it raises nothing.  No other
run parameter (threshold, follow-up count, concurrency) is validated
anywhere in the repository, and this function has no caller. -/
def validate_qa_settings (qa_turns : Int) : ValidationResult :=
  if qa_turns < 5 ∨ 20 < qa_turns then
    { is_valid := false,
      error_message := "Q&Aターン数は5-20の範囲で設定してください",
      warnings := [] }
  else if 15 < qa_turns then
    { is_valid := true, error_message := "",
      warnings := ["Q&Aターン数が多いため、処理時間が長くなる可能性があります"] }
  else
    { is_valid := true, error_message := "", warnings := [] }

/-- Lifecycle of one section task with respect to the admission gate of
`_process_section_async` (src/app.py lines 1239-1251): not yet admitted,
inside the `async with semaphore` region (all its Gateway calls happen
here), or finished. -/
inductive TaskState where
  | pending
  | running
  | done
  deriving Repr, DecidableEq

/-- Number of section tasks currently inside the gated region, i.e. the
number of simultaneously in-flight Gateway call sites. -/
def inflight (n : Nat) (σ : Fin n → TaskState) : Nat :=
  (Finset.univ.filter (fun i => σ i = TaskState.running)).card

/-- Interleaving semantics of the `asyncio.gather` over the section tasks.
`gate = some c` models `_run_parallel_qa_only_with_progress`, which wraps
every task in a shared `asyncio.Semaphore` (capacity 3, line 1547):
a task is admitted only while fewer than `c` tasks are inside.
`gate = none` models `_run_parallel_qa_only` (lines 1023-1048), which
passes no semaphore, so `_process_section_async` takes its `else` branch
and admission is unconditional. -/
inductive SemStep (n : Nat) (gate : Option Nat) :
    (Fin n → TaskState) → (Fin n → TaskState) → Prop
  | acquire (σ : Fin n → TaskState) (i : Fin n)
      (hp : σ i = TaskState.pending)
      (hg : ∀ c, gate = some c → inflight n σ < c) :
      SemStep n gate σ (Function.update σ i TaskState.running)
  | finish (σ : Fin n → TaskState) (i : Fin n)
      (hr : σ i = TaskState.running) :
      SemStep n gate σ (Function.update σ i TaskState.done)

/-- States reachable from the start of the gather (all tasks created but
none admitted). -/
def SemReachable (n : Nat) (gate : Option Nat) (σ : Fin n → TaskState) : Prop :=
  Relation.ReflTransGen (SemStep n gate) (fun _ => TaskState.pending) σ

/-! ## Concrete Gateway environments used to instantiate the theorems -/

/-- A parse function modelling Python `float()` on the two numeric reply
strings the concrete environments use. -/
def parseW : String → Option ℚ :=
  fun s => if s = "0.9" then some (9/10) else if s = "0.1" then some (1/10) else none

/-- A Gateway environment in which every call succeeds and the complexity
rubric call always replies "0.9". -/
def envOk : Env :=
  { genQuestion := fun _ _ => some "q",
    genAnswer := fun _ _ => some "a",
    genFollowupQuestion := fun _ => some "fq",
    genFollowupAnswer := fun _ _ => some "fa",
    evalResponse := fun _ => some "0.9",
    parseFloat := parseW }

/-- Like `envOk` but the complexity rubric call always replies "0.1". -/
def envLow : Env :=
  { envOk with evalResponse := fun _ => some "0.1" }

/-- Like `envOk` but the teacher answer call always raises. -/
def envFailAnswer : Env :=
  { envOk with genAnswer := fun _ _ => none }

/-- Like `envOk` but the student question call always raises. -/
def envFailQuestion : Env :=
  { envOk with genQuestion := fun _ _ => none }

/-! ## Helper lemmas -/

lemma followupLoopAux_length_le (env : Env) (sectionText : String) (idx : Nat)
    (θ : ℚ) : ∀ (fuel count : Nat) (current : String),
    (followupLoopAux env sectionText idx θ fuel count current).length ≤ fuel := by
  intro fuel
  induction fuel with
  | zero => intro count current; simp [followupLoopAux]
  | succ m ih =>
    intro count current
    simp only [followupLoopAux]
    cases hq : env.genFollowupQuestion current with
    | none => simp
    | some fq =>
      cases ha : env.genFollowupAnswer fq sectionText with
      | none => simp [ha]
      | some fa =>
        simp only [ha]
        by_cases h : env.evalComplexity fa < θ
        · simp [h]
        · simp only [h, if_false, List.length_cons]
          exact Nat.succ_le_succ (ih (count + 1) fa)

lemma followupLoopAux_length_eq (env : Env) (sectionText : String) (idx : Nat)
    (θ : ℚ)
    (hfq : ∀ t, (env.genFollowupQuestion t).isSome)
    (hfa : ∀ q s, (env.genFollowupAnswer q s).isSome)
    (hev : ∀ t, θ ≤ env.evalComplexity t) :
    ∀ (fuel count : Nat) (current : String),
    (followupLoopAux env sectionText idx θ fuel count current).length = fuel := by
  intro fuel
  induction fuel with
  | zero => intro count current; simp [followupLoopAux]
  | succ m ih =>
    intro count current
    obtain ⟨fq, hq⟩ := Option.isSome_iff_exists.mp (hfq current)
    obtain ⟨fa, ha⟩ := Option.isSome_iff_exists.mp (hfa fq sectionText)
    have hlt : ¬ env.evalComplexity fa < θ := not_lt.mpr (hev fa)
    simp only [followupLoopAux, hq, ha, hlt, if_false, List.length_cons]
    exact congrArg Nat.succ (ih (count + 1) fa)

lemma parseW_09 : parseW "0.9" = some (9/10) := by
  unfold parseW; rw [if_pos rfl]

lemma parseW_01 : parseW "0.1" = some (1/10) := by
  unfold parseW; rw [if_neg (by decide), if_pos rfl]

lemma envOk_eval (t : String) : envOk.evalComplexity t = 9/10 := by
  show evaluate_answer_complexity parseW (some "0.9") = 9/10
  simp only [evaluate_answer_complexity, parseW_09]
  rw [min_eq_right (by norm_num), max_eq_right (by norm_num)]

lemma envLow_eval (t : String) : envLow.evalComplexity t = 1/10 := by
  show evaluate_answer_complexity parseW (some "0.1") = 1/10
  simp only [evaluate_answer_complexity, parseW_01]
  rw [min_eq_right (by norm_num), max_eq_right (by norm_num)]

/-! ## Claim theorems: evaluator and per-section state machine -/

/-- C7: for every answer text, `_evaluate_answer_complexity` returns a
score in [0,1]; a parsed numeric Gateway reply is clamped into that
range; a failed Gateway call or an unparsable reply yields exactly 0.5.
The function is total over the embedded failure modes, so no error
propagates to the caller. -/
theorem evaluate_complexity_range_failsoft (pf : String → Option ℚ)
    (resp : Option String) :
    (0 ≤ evaluate_answer_complexity pf resp
      ∧ evaluate_answer_complexity pf resp ≤ 1)
    ∧ (resp = none → evaluate_answer_complexity pf resp = 1/2)
    ∧ (∀ r, resp = some r → pf r = none →
        evaluate_answer_complexity pf resp = 1/2)
    ∧ (∀ r x, resp = some r → pf r = some x →
        evaluate_answer_complexity pf resp = max 0 (min 1 x)) := by
  refine ⟨?_, ?_, ?_, ?_⟩
  · unfold evaluate_answer_complexity
    cases resp with
    | none => norm_num
    | some r =>
      cases hp : pf r with
      | none => simp only [hp]; norm_num
      | some x =>
        simp only [hp]
        exact ⟨le_max_left 0 (min 1 x), max_le (by norm_num) (min_le_left 1 x)⟩
  · intro h; subst h; rfl
  · intro r h hn; subst h; simp [evaluate_answer_complexity, hn]
  · intro r x h hx; subst h; simp [evaluate_answer_complexity, hx]

/-- Witness for C7 at a concrete parse function and replies. -/
theorem evaluate_complexity_range_failsoft_witness :
    (0 ≤ evaluate_answer_complexity parseW (some "0.9")
      ∧ evaluate_answer_complexity parseW (some "0.9") ≤ 1)
    ∧ evaluate_answer_complexity parseW none = 1/2 :=
  ⟨(evaluate_complexity_range_failsoft parseW (some "0.9")).1,
   (evaluate_complexity_range_failsoft parseW none).2.1 rfl⟩

/-- C3 (amended): with an always-succeeding Gateway and an evaluator that
always meets the threshold, the follow-up loop of
`_handle_followup_questions_async` generates exactly `max_followups`
follow-up exchanges and never more; but `_process_section_internal`
attaches only the FIRST of them to the returned section result, which
therefore contains exactly 1 follow-up exchange, not `max_followups`. -/
theorem followup_budget_exact (env : Env) (sectionText initAns : String)
    (idx : Nat) (θ : ℚ) (mf : Nat) (kw : Option String) :
    (handle_followup_questions env sectionText initAns idx θ mf).length ≤ mf
    ∧ ((∀ t, (env.genFollowupQuestion t).isSome) →
       (∀ q s, (env.genFollowupAnswer q s).isSome) →
       (∀ t, θ ≤ env.evalComplexity t) →
       (handle_followup_questions env sectionText initAns idx θ mf).length = mf)
    ∧ ((∀ t, (env.genFollowupQuestion t).isSome) →
       (∀ q s, (env.genFollowupAnswer q s).isSome) →
       (∀ t, θ ≤ env.evalComplexity t) →
       (env.genQuestion sectionText kw).isSome →
       (∀ q s, (env.genAnswer q s).isSome) →
       1 ≤ mf →
       followupExchangeCount
         (process_section_internal env sectionText idx true θ mf kw) = 1) := by
  refine ⟨followupLoopAux_length_le env sectionText idx θ mf 0 initAns,
    fun hfq hfa hev =>
      followupLoopAux_length_eq env sectionText idx θ hfq hfa hev mf 0 initAns,
    fun hfq hfa hev hq ha hmf => ?_⟩
  obtain ⟨q, hq1⟩ := Option.isSome_iff_exists.mp hq
  obtain ⟨a, ha1⟩ := Option.isSome_iff_exists.mp (ha q sectionText)
  have hth : θ ≤ env.evalComplexity a := hev a
  have hlen : (handle_followup_questions env sectionText a idx θ mf).length = mf :=
    followupLoopAux_length_eq env sectionText idx θ hfq hfa hev mf 0 a
  simp only [process_section_internal, hq1, ha1, if_true]
  rw [if_pos hth]
  cases hh : handle_followup_questions env sectionText a idx θ mf with
  | nil => rw [hh] at hlen; simp at hlen; omega
  | cons fp rest => simp [followupExchangeCount]

/-- Witness for C3 at the concrete always-0.9 environment with
threshold 0.5 and budget 3. -/
theorem followup_budget_exact_witness :
    (handle_followup_questions envOk "sec" "a" 0 (1/2) 3).length = 3 := by
  have h := (followup_budget_exact envOk "sec" "a" 0 (1/2) 3 none).2.1
  apply h
  · intro t; rfl
  · intro q s; rfl
  · intro t; rw [envOk_eval]; norm_num

/-- Counterexample for C3 as stated: evaluator always 0.9, threshold 0.5,
budget 3, every Gateway call succeeding — the internal loop makes 3
follow-up pairs, yet the section result returned by
`_process_section_internal` contains exactly 1 follow-up exchange. -/
theorem followup_result_count_counterexample :
    followupExchangeCount (process_section_internal envOk "s" 0 true (1/2) 3 none) = 1
    ∧ (handle_followup_questions envOk "s" "a" 0 (1/2) 3).length = 3
    ∧ followupExchangeCount (process_section_internal envOk "s" 0 true (1/2) 3 none) ≠ 3 := by
  have hloop : ∀ (fuel count : Nat) (cur : String),
      followupLoopAux envOk "s" 0 (1/2) fuel count cur
        = (List.range fuel).map (fun j =>
            { question := "fq", answer := "fa", sectionIdx := 0,
              followup_count := count + 1 + j : FollowupPair }) := by
    intro fuel
    induction fuel with
    | zero => intro count cur; rfl
    | succ m ih =>
      intro count cur
      have hfq : envOk.genFollowupQuestion cur = some "fq" := rfl
      have hfa : envOk.genFollowupAnswer "fq" "s" = some "fa" := rfl
      have hlt : ¬ envOk.evalComplexity "fa" < 1/2 := by
        rw [envOk_eval]; norm_num
      simp only [followupLoopAux, hfq, hfa, hlt, if_false]
      rw [ih (count + 1) "fa"]
      simp only [List.range_succ_eq_map, List.map_cons, List.map_map]
      congr 1
      apply List.map_congr_left
      intro j _
      simp [Function.comp, Nat.succ_eq_add_one, FollowupPair.mk.injEq]
      omega
  have hhandle : handle_followup_questions envOk "s" "a" 0 (1/2) 3
      = [{ question := "fq", answer := "fa", sectionIdx := 0, followup_count := 1 },
         { question := "fq", answer := "fa", sectionIdx := 0, followup_count := 2 },
         { question := "fq", answer := "fa", sectionIdx := 0, followup_count := 3 }] := by
    unfold handle_followup_questions
    rw [hloop]
    rfl
  have hproc : process_section_internal envOk "s" 0 true (1/2) 3 none
      = [{ question := "q", answer := "a", sectionIdx := 0,
           followup_question := some "fq", followup_answer := some "fa",
           complexity_score := some (envOk.evalComplexity "a") }] := by
    have hth : (1:ℚ)/2 ≤ envOk.evalComplexity "a" := by
      rw [envOk_eval]; norm_num
    have hq : envOk.genQuestion "s" none = some "q" := rfl
    have ha : envOk.genAnswer "q" "s" = some "a" := rfl
    simp only [process_section_internal, hq, ha, if_true]
    rw [if_pos hth]
    have hh3 : handle_followup_questions envOk "s" "a" 0 (1/2) 3
        = [{ question := "fq", answer := "fa", sectionIdx := 0, followup_count := 1 },
           { question := "fq", answer := "fa", sectionIdx := 0, followup_count := 2 },
           { question := "fq", answer := "fa", sectionIdx := 0, followup_count := 3 }] := hhandle
    rw [hh3]
  refine ⟨?_, ?_, ?_⟩
  · rw [hproc]; rfl
  · rw [hhandle]; rfl
  · rw [hproc]; intro h; simp [followupExchangeCount] at h

/-- C8: a returned section pair carries a follow-up only if follow-ups
were enabled and the main answer's computed complexity met the threshold;
with an evaluator always below the threshold, a section result carries no
follow-up at all. -/
theorem followups_only_if_threshold (env : Env) (sectionText : String)
    (idx : Nat) (ef : Bool) (θ : ℚ) (mf : Nat) (kw : Option String) :
    (∀ p ∈ process_section_internal env sectionText idx ef θ mf kw,
        p.followup_question.isSome →
        ef = true ∧ θ ≤ env.evalComplexity p.answer)
    ∧ ((∀ t, env.evalComplexity t < θ) →
        ∀ p ∈ process_section_internal env sectionText idx ef θ mf kw,
          p.followup_question = none) := by
  cases hq : env.genQuestion sectionText kw with
  | none => simp [process_section_internal, hq]
  | some q =>
    cases ha : env.genAnswer q sectionText with
    | none => simp [process_section_internal, hq, ha]
    | some a =>
      cases ef with
      | false =>
        have hres : process_section_internal env sectionText idx false θ mf kw
            = [{ question := q, answer := a, sectionIdx := idx }] := by
          simp [process_section_internal, hq, ha]
        rw [hres]
        constructor
        · intro p hp hsome
          simp only [List.mem_singleton] at hp
          subst hp; simp at hsome
        · intro _ p hp
          simp only [List.mem_singleton] at hp
          subst hp; rfl
      | true =>
        by_cases hth : θ ≤ env.evalComplexity a
        · cases hh : handle_followup_questions env sectionText a idx θ mf with
          | nil =>
            have hres : process_section_internal env sectionText idx true θ mf kw
                = [{ question := q, answer := a, sectionIdx := idx }] := by
              simp only [process_section_internal, hq, ha, if_true]
              rw [if_pos hth, hh]
            rw [hres]
            constructor
            · intro p hp hsome
              simp only [List.mem_singleton] at hp
              subst hp; simp at hsome
            · intro hev
              exact absurd hth (not_le.mpr (hev a))
          | cons fp rest =>
            have hres : process_section_internal env sectionText idx true θ mf kw
                = [{ question := q, answer := a, sectionIdx := idx,
                     followup_question := some fp.question,
                     followup_answer := some fp.answer,
                     complexity_score := some (env.evalComplexity a) }] := by
              simp only [process_section_internal, hq, ha, if_true]
              rw [if_pos hth, hh]
            rw [hres]
            constructor
            · intro p hp _
              simp only [List.mem_singleton] at hp
              subst hp
              exact ⟨rfl, hth⟩
            · intro hev
              exact absurd hth (not_le.mpr (hev a))
        · have hres : process_section_internal env sectionText idx true θ mf kw
              = [{ question := q, answer := a, sectionIdx := idx }] := by
            simp only [process_section_internal, hq, ha, if_true]
            rw [if_neg hth]
          rw [hres]
          constructor
          · intro p hp hsome
            simp only [List.mem_singleton] at hp
            subst hp; simp at hsome
          · intro _ p hp
            simp only [List.mem_singleton] at hp
            subst hp; rfl

/-- Witness for C8: with the always-0.1 environment and threshold 0.5 the
returned section pair has no follow-up key. -/
theorem followups_only_if_threshold_witness :
    ((process_section_internal envLow "s" 0 true (1/2) 3 none).headD
        default).followup_question = none := by
  have h := (followups_only_if_threshold envLow "s" 0 true (1/2) 3 none).2
  have hev : ∀ t, envLow.evalComplexity t < 1/2 := fun t => by
    rw [envLow_eval]; norm_num
  apply h hev
  have hth : ¬ ((1:ℚ)/2 ≤ envLow.evalComplexity "a") := by
    rw [envLow_eval]; norm_num
  have hq : envLow.genQuestion "s" none = some "q" := rfl
  have ha : envLow.genAnswer "q" "s" = some "a" := rfl
  have hproc : process_section_internal envLow "s" 0 true (1/2) 3 none
      = [{ question := "q", answer := "a", sectionIdx := 0 }] := by
    simp only [process_section_internal, hq, ha, if_true]
    rw [if_neg hth]
  rw [hproc]
  simp

/-! ## Orchestration helper lemmas -/

lemma collectSlots_mem (task : Nat → List QAPair) (order : List Nat) (i : Nat)
    (h : i ∈ order) : collectSlots task order i = some (task i) := by
  induction order with
  | nil => cases h
  | cons j rest ih =>
    by_cases hij : i = j
    · subst hij
      simp [collectSlots, Function.update_same]
    · rcases List.mem_cons.mp h with hij2 | hmem
      · exact absurd hij2 hij
      · simp [collectSlots, Function.update_noteq hij, ih hmem]

lemma run_results_eq (task : Nat → List QAPair) (n : Nat) (order : List Nat)
    (hord : ∀ i < n, i ∈ order) :
    (List.range n).map (fun i => (collectSlots task order i).getD [])
      = (List.range n).map task := by
  apply List.map_congr_left
  intro i hi
  rw [collectSlots_mem task order i (hord i (List.mem_range.mp hi))]
  rfl

lemma resultsFold_fst (total : Nat) (rs : List (List QAPair)) :
    ∀ c, (resultsFold total c rs).1 = rs.flatten := by
  induction rs with
  | nil => intro c; rfl
  | cons r rest ih =>
    intro c
    simp only [resultsFold]
    by_cases hr : r.isEmpty = true
    · have hnil : r = [] := List.isEmpty_iff.mp hr
      simp [hr, hnil, ih]
    · simp [hr, ih]

lemma process_section_shape (env : Env) (s : String) (idx : Nat) (ef : Bool)
    (θ : ℚ) (mf : Nat) (kw : Option String) :
    process_section_internal env s idx ef θ mf kw = []
    ∨ ∃ p : QAPair, process_section_internal env s idx ef θ mf kw = [p]
        ∧ p.sectionIdx = idx := by
  cases hq : env.genQuestion s kw with
  | none => exact Or.inl (by simp [process_section_internal, hq])
  | some q =>
    cases ha : env.genAnswer q s with
    | none => exact Or.inl (by simp [process_section_internal, hq, ha])
    | some a =>
      cases ef with
      | false =>
        refine Or.inr ⟨{ question := q, answer := a, sectionIdx := idx }, ?_, rfl⟩
        simp [process_section_internal, hq, ha]
      | true =>
        by_cases hth : θ ≤ env.evalComplexity a
        · cases hh : handle_followup_questions env s a idx θ mf with
          | nil =>
            refine Or.inr ⟨{ question := q, answer := a, sectionIdx := idx }, ?_, rfl⟩
            simp only [process_section_internal, hq, ha, if_true]
            rw [if_pos hth, hh]
          | cons fp rest =>
            have hres : process_section_internal env s idx true θ mf kw
                = [{ question := q, answer := a, sectionIdx := idx,
                     followup_question := some fp.question,
                     followup_answer := some fp.answer,
                     complexity_score := some (env.evalComplexity a) }] := by
              simp only [process_section_internal, hq, ha, if_true]
              rw [if_pos hth, hh]
            exact Or.inr ⟨_, hres, rfl⟩
        · refine Or.inr ⟨{ question := q, answer := a, sectionIdx := idx }, ?_, rfl⟩
          simp only [process_section_internal, hq, ha, if_true]
          rw [if_neg hth]

lemma join_map_sectionIdx (f : Nat → List QAPair)
    (hf : ∀ i, f i = [] ∨ ∃ p, f i = [p] ∧ p.sectionIdx = i) (l : List Nat) :
    ((l.map f).flatten.map QAPair.sectionIdx)
      = l.filter (fun i => !(f i).isEmpty) := by
  induction l with
  | nil => rfl
  | cons i rest ih =>
    rcases hf i with h | ⟨p, hp, hpi⟩
    · simp [List.filter_cons, h, ih]
    · simp [List.filter_cons, hp, hpi, ih]

lemma run_qa_map_eq_filter (env : Nat → Env) (sections : List String) (ef : Bool)
    (θ : ℚ) (mf : Nat) (tks : List String) (order : List Nat)
    (hord : ∀ i < sections.length, i ∈ order) :
    ((run_parallel_qa_with_progress env sections ef θ mf tks order).1.map
        QAPair.sectionIdx)
      = (List.range sections.length).filter
          (fun i => !(sectionTask env sections ef θ mf tks i).isEmpty) := by
  simp only [run_parallel_qa_with_progress]
  rw [run_results_eq _ _ _ hord, resultsFold_fst]
  apply join_map_sectionIdx
  intro i
  exact process_section_shape (env i) (sections.getD i "") i ef θ mf
    ((assignLoop tks [] sections.length).getD i none)

/-! ## Claim theorems: orchestrator output order, failure isolation,
progress reporting, config validation -/

/-- C1 (amended): independently of the completion order, the Q&A list
returned by `_run_parallel_qa_only_with_progress` lists exactly the
sections whose task returned a non-empty result, in ascending section
order; when every section succeeds the i-th entry has section index i.
A failed section contributes no entry at all, so with a failure the i-th
entry need not have index i (see the counterexample). -/
theorem run_qa_output_order (env : Nat → Env) (sections : List String) (ef : Bool)
    (θ : ℚ) (mf : Nat) (tks : List String) (order : List Nat)
    (hord : ∀ i < sections.length, i ∈ order) :
    ((run_parallel_qa_with_progress env sections ef θ mf tks order).1.map
        QAPair.sectionIdx)
        = (List.range sections.length).filter
            (fun i => !(sectionTask env sections ef θ mf tks i).isEmpty)
    ∧ ((run_parallel_qa_with_progress env sections ef θ mf tks order).1.map
          QAPair.sectionIdx).Sorted (· < ·)
    ∧ ((∀ i < sections.length,
          (sectionTask env sections ef θ mf tks i).isEmpty = false) →
        (run_parallel_qa_with_progress env sections ef θ mf tks order).1.map
            QAPair.sectionIdx = List.range sections.length) := by
  have h := run_qa_map_eq_filter env sections ef θ mf tks order hord
  refine ⟨h, ?_, ?_⟩
  · rw [h]
    exact (List.pairwise_lt_range sections.length).filter _
  · intro hsucc
    rw [h]
    conv_rhs => rw [show List.range sections.length
      = (List.range sections.length).filter (fun _ => true) by simp]
    apply List.filter_congr
    intro a ha
    simp [hsucc a (List.mem_range.mp ha)]

/-- Witness for C1: two sections, reverse completion order, all calls
succeed — the output is [0, 1]. -/
theorem run_qa_output_order_witness :
    (run_parallel_qa_with_progress (fun _ => envOk) ["s0", "s1"] false 0 0 []
        [1, 0]).1.map QAPair.sectionIdx = List.range 2 := by
  exact (run_qa_output_order (fun _ => envOk) ["s0", "s1"] false 0 0 [] [1, 0]
    (by decide)).2.2 (by decide)

/-- Counterexample for C1 as stated: when section 0 fails its question
call, the returned list is [entry of section 1]; the entry at position 0
has section index 1, so result[i].sectionIndex == i fails. -/
theorem run_qa_order_counterexample :
    ¬ ((run_parallel_qa_with_progress
          (fun i => if i = 0 then envFailQuestion else envOk)
          ["s0", "s1"] false 0 0 [] [1, 0]).1.map QAPair.sectionIdx
        = List.range 2) := by
  decide

/-- C2 (amended): when exactly one section's Gateway calls fail, sibling
sections are unaffected: the run returns the other sections' entries in
ascending order — but the failed section contributes NO entry (no FAILED
marker, no error value), so the list has length n-1 rather than n. -/
theorem run_qa_partial_failure (env : Nat → Env) (sections : List String)
    (ef : Bool) (θ : ℚ) (mf : Nat) (tks : List String) (order : List Nat)
    (k : Nat)
    (hord : ∀ i < sections.length, i ∈ order)
    (hk : (sectionTask env sections ef θ mf tks k).isEmpty = true)
    (hother : ∀ i < sections.length, i ≠ k →
        (sectionTask env sections ef θ mf tks i).isEmpty = false) :
    ((run_parallel_qa_with_progress env sections ef θ mf tks order).1.map
        QAPair.sectionIdx)
      = (List.range sections.length).filter (fun i => decide (i ≠ k)) := by
  rw [run_qa_map_eq_filter env sections ef θ mf tks order hord]
  apply List.filter_congr
  intro i hi
  by_cases hik : i = k
  · subst hik; simp [hk]
  · simp [hother i (List.mem_range.mp hi) hik, hik]

/-- Witness for C2: 5 sections, section 2's answer call always raises,
reverse completion order — output indices are [0, 1, 3, 4]. -/
theorem run_qa_partial_failure_witness :
    ((run_parallel_qa_with_progress (fun i => if i = 2 then envFailAnswer else envOk)
        ["s0", "s1", "s2", "s3", "s4"] false 0 0 [] [4, 3, 2, 1, 0]).1.map
        QAPair.sectionIdx) = [0, 1, 3, 4] := by
  have h := run_qa_partial_failure
    (fun i => if i = 2 then envFailAnswer else envOk)
    ["s0", "s1", "s2", "s3", "s4"] false 0 0 [] [4, 3, 2, 1, 0] 2
    (by decide) (by decide) (by decide)
  rw [h]
  decide

/-- Counterexample for C2 as stated: in the same scenario the result list
has length 4, not 5, and carries no FAILED entry for section 2. -/
theorem run_qa_failed_marker_counterexample :
    ((run_parallel_qa_with_progress (fun i => if i = 2 then envFailAnswer else envOk)
        ["s0", "s1", "s2", "s3", "s4"] false 0 0 [] [4, 3, 2, 1, 0]).1.map
        QAPair.sectionIdx = [0, 1, 3, 4])
    ∧ ((run_parallel_qa_with_progress (fun i => if i = 2 then envFailAnswer else envOk)
        ["s0", "s1", "s2", "s3", "s4"] false 0 0 [] [4, 3, 2, 1, 0]).1.length ≠ 5) := by
  constructor <;> decide

lemma resultsFold_progress (total : Nat) (rs : List (List QAPair)) :
    ∀ c, (∀ x ∈ (resultsFold total c rs).2,
        c < x.1 ∧ x.1 ≤ c + rs.length ∧ x.2 = total
          ∧ (x.1 % 5 = 0 ∨ x.1 = total))
    ∧ ((resultsFold total c rs).2.map Prod.fst).Pairwise (· < ·) := by
  induction rs with
  | nil =>
    intro c
    exact ⟨fun x hx => absurd hx (by simp [resultsFold]), by simp [resultsFold]⟩
  | cons r rest ih =>
    intro c
    simp only [resultsFold]
    by_cases hr : r.isEmpty = true
    · simp only [hr, if_true]
      refine ⟨fun x hx => ?_, (ih (c + 1)).2⟩
      obtain ⟨h1, h2, h3, h4⟩ := (ih (c + 1)).1 x hx
      refine ⟨by omega, ?_, h3, h4⟩
      simp only [List.length_cons]
      omega
    · rw [if_neg hr]
      constructor
      · intro x hx
        rcases List.mem_append.mp hx with hx1 | hx2
        · by_cases hc : (c + 1) % 5 = 0 ∨ c + 1 = total
          · rw [if_pos hc] at hx1
            simp only [List.mem_singleton] at hx1
            subst hx1
            refine ⟨by omega, ?_, rfl, hc⟩
            simp only [List.length_cons]
            omega
          · rw [if_neg hc] at hx1; cases hx1
        · obtain ⟨h1, h2, h3, h4⟩ := (ih (c + 1)).1 x hx2
          refine ⟨by omega, ?_, h3, h4⟩
          simp only [List.length_cons]
          omega
      · rw [List.map_append]
        by_cases hc : (c + 1) % 5 = 0 ∨ c + 1 = total
        · rw [if_pos hc]
          simp only [List.map_cons, List.map_nil, List.singleton_append]
          refine List.pairwise_cons.mpr ⟨?_, (ih (c + 1)).2⟩
          intro y hy
          obtain ⟨x, hx, hxy⟩ := List.mem_map.mp hy
          have := ((ih (c + 1)).1 x hx).1
          omega
        · rw [if_neg hc]
          simpa using (ih (c + 1)).2

/-- C5 (amended): during the aggregation loop of
`_run_parallel_qa_only_with_progress`, the overall progress is updated
only when the just-counted section produced a non-empty result AND the
completed count is a multiple of 5 or equals the total; each reported
pair has `total = n` and a completed count in 1..n, and the reported
completed counts are strictly increasing.  In particular the callback is
NOT invoked once per section. -/
theorem run_qa_progress_characterization (env : Nat → Env)
    (sections : List String) (ef : Bool) (θ : ℚ) (mf : Nat)
    (tks : List String) (order : List Nat) :
    (∀ x ∈ (run_parallel_qa_with_progress env sections ef θ mf tks order).2,
        1 ≤ x.1 ∧ x.1 ≤ sections.length ∧ x.2 = sections.length
          ∧ (x.1 % 5 = 0 ∨ x.1 = sections.length))
    ∧ ((run_parallel_qa_with_progress env sections ef θ mf tks order).2.map
          Prod.fst).Pairwise (· < ·) := by
  simp only [run_parallel_qa_with_progress]
  have h := resultsFold_progress sections.length
    ((List.range sections.length).map
      (fun i => (collectSlots (sectionTask env sections ef θ mf tks) order i).getD []))
    0
  refine ⟨fun x hx => ?_, h.2⟩
  obtain ⟨h1, h2, h3, h4⟩ := h.1 x hx
  simp only [List.length_map, List.length_range] at h2
  exact ⟨by omega, by omega, h3, h4⟩

/-- Witness for C5: three successful sections — the only reported update
is (3, 3), and the theorem applies to it. -/
theorem run_qa_progress_characterization_witness :
    1 ≤ ((3, 3) : Nat × Nat).1
    ∧ ((3, 3) : Nat × Nat).1 ≤ (["s1", "s2", "s3"] : List String).length
    ∧ ((3, 3) : Nat × Nat).2 = (["s1", "s2", "s3"] : List String).length
    ∧ (((3, 3) : Nat × Nat).1 % 5 = 0
        ∨ ((3, 3) : Nat × Nat).1 = (["s1", "s2", "s3"] : List String).length) :=
  (run_qa_progress_characterization (fun _ => envOk) ["s1", "s2", "s3"]
    false 0 0 [] [0, 1, 2]).1 (3, 3) (by decide)

/-- Counterexample for C5 as stated: for 3 successful sections the
progress is reported exactly once — at (3, 3) — not 3 times. -/
theorem run_qa_progress_count_counterexample :
    (run_parallel_qa_with_progress (fun _ => envOk) ["s1", "s2", "s3"]
        false 0 0 [] [0, 1, 2]).2 = [(3, 3)]
    ∧ ((run_parallel_qa_with_progress (fun _ => envOk) ["s1", "s2", "s3"]
        false 0 0 [] [0, 1, 2]).2).length ≠ 3 := by
  constructor <;> decide

/-- C9 (amended): the only configuration validator in the repository,
`InputValidator.validate_qa_settings`, checks nothing but
`qa_turns ∈ [5, 20]` and RETURNS a result dict with an `is_valid` flag —
it raises no exception; and the parallel Q&A run itself performs no
validation at all: with `followup_threshold = 2` (outside [0,1]) the run
still launches every section task and returns a full result list. -/
theorem config_validation_flag_and_run (qa_turns : Int) :
    ((validate_qa_settings qa_turns).is_valid = true
      ↔ 5 ≤ qa_turns ∧ qa_turns ≤ 20)
    ∧ (∀ (env : Nat → Env) (sections : List String) (ef : Bool) (mf : Nat)
        (tks : List String) (order : List Nat),
        (∀ i < sections.length, i ∈ order) →
        (∀ i < sections.length,
          (sectionTask env sections ef 2 mf tks i).isEmpty = false) →
        ((run_parallel_qa_with_progress env sections ef 2 mf tks order).1).length
          = sections.length) := by
  constructor
  · unfold validate_qa_settings
    by_cases h : qa_turns < 5 ∨ 20 < qa_turns
    · rw [if_pos h]; simp; omega
    · rw [if_neg h]
      by_cases h2 : 15 < qa_turns
      · rw [if_pos h2]; simp; omega
      · rw [if_neg h2]; simp; omega
  · intro env sections ef mf tks order hord hsucc
    have h := run_qa_map_eq_filter env sections ef 2 mf tks order hord
    have h2 : (List.range sections.length).filter
        (fun i => !(sectionTask env sections ef 2 mf tks i).isEmpty)
        = List.range sections.length := by
      apply List.filter_eq_self.mpr
      intro a ha
      simp [hsucc a (List.mem_range.mp ha)]
    have hlen : ((run_parallel_qa_with_progress env sections ef 2 mf tks
        order).1.map QAPair.sectionIdx).length = sections.length := by
      rw [h, h2, List.length_range]
    simpa using hlen

/-- Witness for C9: a valid `qa_turns` flag instance and a concrete run
with threshold 2 that completes with a full result list. -/
theorem config_validation_flag_and_run_witness :
    (validate_qa_settings 10).is_valid = true
    ∧ ((run_parallel_qa_with_progress (fun _ => envOk) ["s"] false 2 0 []
        [0]).1).length = 1 := by
  constructor
  · exact (config_validation_flag_and_run 10).1.mpr (by omega)
  · exact (config_validation_flag_and_run 10).2 (fun _ => envOk) ["s"] false 0
      [] [0] (by decide) (by decide)

/-- Counterexample for C9 as stated: with followupThreshold = 2, which
violates the [0,1] config range, no exception is raised and the run
launches its section task and returns its Q&A output — the run starts. -/
theorem invalid_config_run_starts_counterexample :
    (run_parallel_qa_with_progress (fun _ => envOk) ["s"] false 2 0 [] [0]).1 ≠ []
    ∧ ¬ ((2 : ℚ) ≤ 1) := by
  constructor
  · decide
  · norm_num

/-! ## Keyword assignment -/

lemma filter_not_mem_take (tks : List String) :
    tks.Nodup → ∀ j, tks.filter (fun kw => kw ∉ tks.take j) = tks.drop j := by
  induction tks with
  | nil => intro _ j; simp
  | cons t ts ih =>
    intro hnd j
    obtain ⟨ht, hts⟩ := List.nodup_cons.mp hnd
    cases j with
    | zero => simp
    | succ j2 =>
      have hstep : (t :: ts).filter (fun kw => kw ∉ (t :: ts).take (j2 + 1))
          = ts.filter (fun kw => kw ∉ ts.take j2) := by
        rw [List.take_succ_cons, List.filter_cons]
        split
        · next hcond => simp at hcond
        · next _ =>
          apply List.filter_congr
          intro kw hkw
          have hkt : kw ≠ t := fun h => ht (h ▸ hkw)
          simp [List.mem_cons, hkt]
      rw [hstep, ih hts j2, List.drop_succ_cons]

lemma assignLoop_take (tks : List String) (hnd : tks.Nodup) (n : Nat) :
    ∀ j, assignLoop tks (tks.take j) n
      = (List.range n).map (fun i => tks[j + i]?) := by
  induction n with
  | zero => intro j; rfl
  | succ m ih =>
    intro j
    by_cases hj : j < tks.length
    · have hcond : tks ≠ [] ∧ (tks.take j).length < tks.length := by
        constructor
        · exact List.ne_nil_of_length_pos (by omega)
        · rw [List.length_take]; omega
      have hpick : pickKeyword tks (tks.take j) = some (tks[j]) := by
        unfold pickKeyword
        rw [if_pos hcond, filter_not_mem_take tks hnd j,
          List.drop_eq_getElem_cons hj]
      simp only [assignLoop, hpick]
      have htake : tks.take j ++ [tks[j]] = tks.take (j + 1) := by
        rw [List.take_succ, List.getElem?_eq_getElem hj]
        rfl
      rw [htake, ih (j + 1), List.range_succ_eq_map, List.map_cons, List.map_map]
      congr 1
      · simp [List.getElem?_eq_getElem hj]
      · apply List.map_congr_left
        intro i _
        simp only [Function.comp_apply, Nat.succ_eq_add_one]
        congr 1
        omega
    · have hpick : pickKeyword tks (tks.take j) = none := by
        unfold pickKeyword
        rw [if_neg ?_]
        rintro ⟨_, h2⟩
        rw [List.length_take] at h2
        omega
      simp only [assignLoop, hpick]
      rw [ih j, List.range_succ_eq_map, List.map_cons, List.map_map]
      congr 1
      · rw [List.getElem?_eq_none (show tks.length ≤ j + 0 by omega)]
      · apply List.map_congr_left
        intro i _
        simp only [Function.comp_apply, Nat.succ_eq_add_one]
        rw [List.getElem?_eq_none (show tks.length ≤ j + i by omega),
          List.getElem?_eq_none (show tks.length ≤ j + (i + 1) by omega)]

lemma countP_range_lt (k : Nat) (n : Nat) :
    (List.range n).countP (fun i => decide (i < k)) = min k n := by
  induction n with
  | zero => simp
  | succ m ih =>
    rw [List.range_succ, List.countP_append, ih]
    by_cases h : m < k
    · simp [List.countP_cons, h]; omega
    · simp [List.countP_cons, h]; omega

/-- C6 (amended): for a DUPLICATE-FREE keyword list, the up-front
assignment gives section i the i-th keyword while keywords remain and
none afterwards: exactly `min k n` sections receive a keyword, the
received keywords are exactly the first `min k n` keywords with no
repeats, and each section receives at most one (one `Option` slot each).
With duplicates in the keyword list the `min k n` count fails (see the
counterexample): a duplicated keyword blocks the pool. -/
theorem keyword_assignment_spec (tks : List String) (n : Nat)
    (hnd : tks.Nodup) :
    assignLoop tks [] n = (List.range n).map (fun i => tks[i]?)
    ∧ ((assignLoop tks [] n).countP (fun o => o.isSome)) = min tks.length n
    ∧ (assignLoop tks [] n).filterMap id = tks.take n
    ∧ ((assignLoop tks [] n).filterMap id).Nodup := by
  have h0 := assignLoop_take tks hnd n 0
  rw [List.take_zero] at h0
  have hchar : assignLoop tks [] n = (List.range n).map (fun i => tks[i]?) := by
    rw [h0]
    apply List.map_congr_left
    intro i _
    rw [Nat.zero_add]
  have hfm : ∀ m, ((List.range m).map (fun i => tks[i]?)).filterMap id
      = tks.take m := by
    intro m
    induction m with
    | zero => simp
    | succ m2 ih =>
      rw [List.range_succ, List.map_append, List.filterMap_append, ih]
      simp only [List.map_cons, List.map_nil]
      by_cases h : m2 < tks.length
      · rw [List.take_succ, List.getElem?_eq_getElem h]
        simp
      · rw [List.take_succ, List.getElem?_eq_none (Nat.le_of_not_lt h)]
        simp
  refine ⟨hchar, ?_, ?_, ?_⟩
  · rw [hchar, List.countP_map]
    have hpt : ((fun o : Option String => o.isSome) ∘ fun i => tks[i]?)
        = fun i => decide (i < tks.length) := by
      funext i
      by_cases h : i < tks.length
      · simp [Function.comp, List.getElem?_eq_getElem h, h]
      · simp [Function.comp,
          List.getElem?_eq_none (show tks.length ≤ i by omega), h]
    rw [hpt, countP_range_lt]
  · rw [hchar, hfm]
  · rw [hchar, hfm]
    exact (List.take_sublist n tks).nodup hnd

/-- Witness for C6 at the spec's own example: keywords [alpha, beta] and
5 sections — exactly 2 sections receive a keyword, and the received
keywords are exactly alpha and beta. -/
theorem keyword_assignment_spec_witness :
    ((assignLoop ["alpha", "beta"] [] 5).countP (fun o => o.isSome)) = 2
    ∧ (assignLoop ["alpha", "beta"] [] 5).filterMap id = ["alpha", "beta"] := by
  have h := keyword_assignment_spec ["alpha", "beta"] 5 (by decide)
  exact ⟨by rw [h.2.1]; decide, by rw [h.2.2.1]; decide⟩

/-- Counterexample for C6 as stated: with the duplicated keyword list
["a", "a"] (k = 2) and 5 sections only ONE section receives a keyword,
not min(2, 5) = 2 — after "a" is used, the availability filter is empty
while `len(used) < len(target_keywords)` still holds. -/
theorem keyword_duplicate_counterexample :
    ((assignLoop ["a", "a"] [] 5).countP (fun o => o.isSome)) = 1
    ∧ ((assignLoop ["a", "a"] [] 5).countP (fun o => o.isSome))
        ≠ min (["a", "a"] : List String).length 5 := by
  constructor <;> decide

/-! ## Concurrency gate -/

lemma inflight_update_running (n : Nat) (σ : Fin n → TaskState) (i : Fin n)
    (h : σ i ≠ TaskState.running) :
    inflight n (Function.update σ i TaskState.running) = inflight n σ + 1 := by
  unfold inflight
  have hset : Finset.univ.filter
      (fun j => Function.update σ i TaskState.running j = TaskState.running)
      = insert i (Finset.univ.filter (fun j => σ j = TaskState.running)) := by
    ext j
    by_cases hj : j = i
    · subst hj; simp [Function.update_same]
    · simp [Function.update_noteq hj, hj]
  rw [hset, Finset.card_insert_of_not_mem (by simp [h])]

lemma inflight_update_done (n : Nat) (σ : Fin n → TaskState) (i : Fin n)
    (h : σ i = TaskState.running) :
    inflight n (Function.update σ i TaskState.done) + 1 = inflight n σ := by
  unfold inflight
  have hset : Finset.univ.filter (fun j => σ j = TaskState.running)
      = insert i (Finset.univ.filter
          (fun j => Function.update σ i TaskState.done j = TaskState.running)) := by
    ext j
    by_cases hj : j = i
    · subst hj; simp [Function.update_same, h]
    · simp [Function.update_noteq hj, hj]
  rw [hset, Finset.card_insert_of_not_mem (by simp [Function.update_same])]

/-- C4 (amended): in `_run_parallel_qa_only_with_progress` the section
tasks share one semaphore (hard-coded capacity 3 at line 1547, not a
configurable `concurrencyLimit`), and in every reachable state of the
gated interleaving semantics at most `C` section tasks are inside the
gated region — hence at most `C` simultaneously in-flight Gateway call
sites.  The sibling entry point `_run_parallel_qa_only` passes NO
semaphore, and there the in-flight count is unbounded (see the
counterexample reaching 4 concurrent tasks). -/
theorem semaphore_inflight_bound (n C : Nat) (σ : Fin n → TaskState)
    (hreach : SemReachable n (some C) σ) : inflight n σ ≤ C := by
  induction hreach with
  | refl =>
    unfold inflight
    simp
  | tail hsteps hstep ih =>
    cases hstep with
    | acquire i hp hg =>
      have hlt := hg C rfl
      rw [inflight_update_running n _ i (by simp [hp])]
      omega
    | finish i hr =>
      have h2 := inflight_update_done n _ i hr
      omega

/-- Witness for C4: the initial state of a 2-task run is reachable and
respects the bound 3. -/
theorem semaphore_inflight_bound_witness :
    inflight 2 (fun _ => TaskState.pending) ≤ 3 :=
  semaphore_inflight_bound 2 3 (fun _ => TaskState.pending)
    Relation.ReflTransGen.refl

/-- Intermediate states of the ungated counterexample run: the first k of
4 tasks are inside the Gateway-calling region. -/
def upTo (k : Nat) : Fin 4 → TaskState :=
  fun j => if j.val < k then TaskState.running else TaskState.pending

/-- Counterexample for C4 as stated: `_run_parallel_qa_only` (src/app.py
lines 1023-1048) passes no semaphore to `_process_section_async`, so
admission is unconditional; with 4 sections the state in which all 4
tasks are simultaneously inside the Gateway-calling region is reachable,
exceeding 3 — the only concurrency limit appearing anywhere in the
repository. -/
theorem ungated_inflight_counterexample :
    SemReachable 4 none (fun _ => TaskState.running)
    ∧ 3 < inflight 4 (fun _ => TaskState.running) := by
  have hg : ∀ (σ : Fin 4 → TaskState) (c : Nat),
      (none : Option Nat) = some c → inflight 4 σ < c := fun σ c hc => by
    cases hc
  constructor
  · have e1 : Function.update (fun _ => TaskState.pending) (0 : Fin 4)
        TaskState.running = upTo 1 := by
      funext j; fin_cases j <;> rfl
    have e2 : Function.update (upTo 1) (1 : Fin 4) TaskState.running
        = upTo 2 := by
      funext j; fin_cases j <;> rfl
    have e3 : Function.update (upTo 2) (2 : Fin 4) TaskState.running
        = upTo 3 := by
      funext j; fin_cases j <;> rfl
    have e4 : Function.update (upTo 3) (3 : Fin 4) TaskState.running
        = (fun _ => TaskState.running) := by
      funext j; fin_cases j <;> rfl
    have s1 : SemStep 4 none (fun _ => TaskState.pending) (upTo 1) := by
      rw [← e1]
      exact SemStep.acquire _ 0 rfl (hg _)
    have s2 : SemStep 4 none (upTo 1) (upTo 2) := by
      rw [← e2]
      exact SemStep.acquire _ 1 rfl (hg _)
    have s3 : SemStep 4 none (upTo 2) (upTo 3) := by
      rw [← e3]
      exact SemStep.acquire _ 2 rfl (hg _)
    have s4 : SemStep 4 none (upTo 3) (fun _ => TaskState.running) := by
      rw [← e4]
      exact SemStep.acquire _ 3 rfl (hg _)
    exact Relation.ReflTransGen.head s1 (Relation.ReflTransGen.head s2
      (Relation.ReflTransGen.head s3 (Relation.ReflTransGen.head s4
        Relation.ReflTransGen.refl)))
  · decide

/-! ## Document splitter -/

lemma padLoop_length (paras : List (List Char)) (target : Nat) :
    ∀ (fuel : Nat) (sections : List (List Char)),
      target ≤ sections.length + fuel →
      (padLoop paras target fuel sections).length
        = max sections.length target := by
  intro fuel
  induction fuel with
  | zero =>
    intro sections h
    simp only [padLoop]
    omega
  | succ m ih =>
    intro sections h
    simp only [padLoop]
    by_cases hlt : sections.length < target
    · rw [if_pos hlt, ih (sections ++ [longestPara paras])
        (by simp only [List.length_append, List.length_cons, List.length_nil]; omega)]
      simp only [List.length_append, List.length_cons, List.length_nil]
      omega
    · rw [if_neg hlt]
      omega

/-- C10: on text with at least one non-whitespace paragraph and
`qa_turns ≥ 1`, `_split_document` terminates — the padding loop grows the
section list by one per iteration, so `qa_turns` iterations always reach
the exit condition — and returns exactly `qa_turns` sections; on text
with no non-whitespace paragraph it returns `min(qa_turns, 3)` copies of
the stripped text, which is fewer than `qa_turns` when `qa_turns > 3`. -/
theorem split_document_count (content : List Char) (qa_turns : Nat) :
    (paragraphsOf content ≠ [] → 1 ≤ qa_turns →
      (split_document content qa_turns).length = qa_turns)
    ∧ (paragraphsOf content = [] →
      split_document content qa_turns
        = List.replicate (min qa_turns 3) (pyStrip content)) := by
  constructor
  · intro hp _
    simp only [split_document]
    rw [if_neg hp]
    by_cases hge : qa_turns ≤ (paragraphsOf content).length
    · rw [if_pos hge]
      simp
    · rw [if_neg hge]
      rw [List.length_take, padLoop_length (paragraphsOf content) qa_turns
        qa_turns (paragraphsOf content) (by omega)]
      omega
  · intro hp
    simp only [split_document]
    rw [if_pos hp]

/-- Witness for C10: "a\n\nbb" with qa_turns 3 yields 3 sections (the
padding loop runs once); whitespace-only text with qa_turns 5 yields
min(5, 3) = 3 copies of the empty stripped text. -/
theorem split_document_count_witness :
    (split_document ['a', '\n', '\n', 'b', 'b'] 3).length = 3
    ∧ split_document [' ', '\n', ' '] 5 = List.replicate 3 [] := by
  constructor
  · exact (split_document_count ['a', '\n', '\n', 'b', 'b'] 3).1
      (by decide) (by decide)
  · have h := (split_document_count [' ', '\n', ' '] 5).2 (by decide)
    rw [h]
    decide

end QASpec
